import Mathlib

/-!
# Verification of the audience-voting application

A shallow embedding, in Lean 4, of the core logic of the voting
application: the stats calculator (`src/utils/stats.ts`), the vote-status
guard (`src/utils/voteStatus.ts`), the polling subscription channels
(`src/services/database.ts`) and the Express request handlers
(`server/server.cjs`).  Each TypeScript/JavaScript function is translated
into an executable Lean definition; JavaScript string falsiness is
modelled by the empty string, `Map` insertion order by in-order
association lists, `localStorage` and the JSON object stores by
functions into `Option`, and floating-point percentages by exact
rationals.
-/

namespace Game

/-! ## Data model (`src/types`) -/

/-- A vote record (`Vote` in `src/types`); the ISO timestamp string is
modelled as a natural number of milliseconds. -/
structure Vote where
  id : String
  questionId : String
  optionId : String
  deviceId : String
  timestamp : Nat
deriving DecidableEq, Repr

/-- A selectable option (`Option` in `src/types`; renamed because `Option`
is taken in Lean). -/
structure Opt where
  id : String
  label : String
  color : Option String := none
deriving DecidableEq, Repr

/-- One entry of the derived statistics (`OptionStat` in `src/types`).
`percentage` is an exact rational standing for the JS float. -/
structure OptionStat where
  optionId : String
  label : String
  count : Nat
  percentage : ℚ
deriving DecidableEq, Repr

/-- The derived statistics (`VoteStats` in `src/types`). -/
structure VoteStats where
  totalVotes : Nat
  options : List OptionStat
deriving DecidableEq, Repr

/-! ## Stats calculator (`src/utils/stats.ts`)

The JS `Map<string, number>` iterates its entries in key-insertion
order, and `set` on an existing key keeps the key's original position;
we embed it as an association list whose order is the insertion order. -/

/-- `countMap.set(k, (countMap.get(k) || 0) + 1)` on the in-order
association list: bump an existing key in place, or append the key with
count 1. -/
def bumpCount : List (String × Nat) → String → List (String × Nat)
  | [], k => [(k, 1)]
  | (k', c) :: rest, k =>
      if k' = k then (k', c + 1) :: rest else (k', c) :: bumpCount rest k

/-- The `countMap` loop of `calculateStats`: count the votes per
`optionId`, keys in first-occurrence order. -/
def countMap (votes : List Vote) : List (String × Nat) :=
  votes.foldl (fun m v => bumpCount m v.optionId) []

/-- `countMap.get(k) || 0`. -/
def lookupCount (m : List (String × Nat)) (k : String) : Nat :=
  match m.lookup k with
  | some c => c
  | none => 0

/-- `calculateStats(votes, options = [])` from `src/utils/stats.ts`:
total is the vote-list length; with a non-empty option list, one stat per
option in input order (label from the option); otherwise one stat per
distinct voted `optionId` in first-occurrence order (label defaults to the
id); `percentage = totalVotes > 0 ? count / totalVotes * 100 : 0`. -/
def calculateStats (votes : List Vote) (options : List Opt := []) : VoteStats :=
  let totalVotes := votes.length
  let cm := countMap votes
  let optionStats : List OptionStat :=
    if options.length > 0 then
      options.map (fun o =>
        let count := lookupCount cm o.id
        let percentage : ℚ :=
          if totalVotes > 0 then (count : ℚ) / (totalVotes : ℚ) * 100 else 0
        { optionId := o.id, label := o.label, count := count, percentage := percentage })
    else
      cm.map (fun p =>
        let percentage : ℚ :=
          if totalVotes > 0 then (p.2 : ℚ) / (totalVotes : ℚ) * 100 else 0
        { optionId := p.1, label := p.1, count := p.2, percentage := percentage })
  { totalVotes := totalVotes, options := optionStats }

/-! ## Vote-status guard (`src/utils/voteStatus.ts`)

`localStorage` is embedded as a function from keys to optional stored
strings; the JS falsiness test `!questionId` on a string is the test for
the empty string.  The `try`/`catch` around an available storage backend
never fires, so the embedding models the storage-available behaviour. -/

/-- The browser-local key/value store backing the guard. -/
def LocalStorage : Type := String → Option String

/-- A storage with no keys set (the state before any `markAsVoted`). -/
def emptyStorage : LocalStorage := fun _ => none

def VOTE_STATUS_PREFIX : String := "vote_status_"

/-- `getStorageKey` from `src/utils/voteStatus.ts`. -/
def getStorageKey (questionId : String) : String :=
  VOTE_STATUS_PREFIX ++ questionId

/-- `checkVoteStatus` from `src/utils/voteStatus.ts`: false for the empty
(falsy) id, else whether the stored value is exactly `"true"`. -/
def checkVoteStatus (store : LocalStorage) (questionId : String) : Bool :=
  if questionId = "" then false
  else
    match store (getStorageKey questionId) with
    | some v => v = "true"
    | none => false

/-- `markAsVoted` from `src/utils/voteStatus.ts`: no-op returning false on
the empty id, else sets the key to `"true"` and returns true. -/
def markAsVoted (store : LocalStorage) (questionId : String) :
    LocalStorage × Bool :=
  if questionId = "" then (store, false)
  else
    (fun k => if k = getStorageKey questionId then some "true" else store k,
     true)

/-- `clearVoteStatus` from `src/utils/voteStatus.ts`: removes the key
(no-op on the empty id). -/
def clearVoteStatus (store : LocalStorage) (questionId : String) :
    LocalStorage :=
  if questionId = "" then store
  else fun k => if k = getStorageKey questionId then none else store k

/-! ## Backend state and handlers (`server/server.cjs`)

The two JSON files are embedded as an explicit server state: the
`events`/`questions` objects as functions from id to optional record, the
votes array as a list.  Each Express handler becomes a function from
state (plus request data) to state and response. -/

/-- An event record (`events.json`). -/
structure Event where
  id : String
  name : String
  currentQuestionId : Option String
  clearedQuestionId : Option String
deriving DecidableEq, Repr

/-- A question record (`events.json`). -/
structure Question where
  id : String
  eventId : String
  title : String
  options : List Opt
  order : Int
deriving DecidableEq, Repr

/-- The data held in the backend's JSON files. -/
structure ServerState where
  events : String → Option Event
  questions : String → Option Question
  votes : List Vote

/-- Responses of the `POST /api/votes` handler: 400 on a missing field,
200 with `updated: true` for an in-place update, 201 for a new vote. -/
inductive PostVoteResponse where
  | badRequest
  | updatedResp (v : Vote)
  | createdResp (v : Vote)
deriving DecidableEq, Repr

/-- The `findIndex` + in-place mutation of the `POST /api/votes` handler:
walk the vote list for the first record matching `(questionId, deviceId)`
and overwrite its `optionId` and `timestamp`, returning the new list and
the updated record; `none` when no record matches. -/
def updateExisting (votes : List Vote) (questionId optionId deviceId : String)
    (now : Nat) : Option (List Vote × Vote) :=
  match votes with
  | [] => none
  | v :: rest =>
      if v.questionId = questionId ∧ v.deviceId = deviceId then
        let v' := { v with optionId := optionId, timestamp := now }
        some (v' :: rest, v')
      else
        match updateExisting rest questionId optionId deviceId now with
        | some (rest', upd) => some (v :: rest', upd)
        | none => none

/-- `POST /api/votes` from `server/server.cjs`: reject a missing (falsy)
field with 400; update the existing `(questionId, deviceId)` record in
place when there is one; otherwise append a fresh vote.  `now` stands for
`Date.now()` and `freshId` for the generated `vote_..._...` id. -/
def postVote (votes : List Vote) (questionId optionId deviceId : String)
    (now : Nat) (freshId : String) : List Vote × PostVoteResponse :=
  if questionId = "" ∨ optionId = "" ∨ deviceId = "" then
    (votes, .badRequest)
  else
    match updateExisting votes questionId optionId deviceId now with
    | some (votes', v') => (votes', .updatedResp v')
    | none =>
        let v : Vote := { id := freshId, questionId := questionId,
                          optionId := optionId, deviceId := deviceId,
                          timestamp := now }
        (votes ++ [v], .createdResp v)

/-- One `POST /api/votes` request (body fields plus the server-chosen
timestamp and fresh id). -/
structure PostVoteRequest where
  questionId : String
  optionId : String
  deviceId : String
  now : Nat
  freshId : String

/-- A sequence of `POST /api/votes` requests applied to the store. -/
def postVotes (votes : List Vote) : List PostVoteRequest → List Vote
  | [] => votes
  | r :: rs => postVotes (postVote votes r.questionId r.optionId r.deviceId r.now r.freshId).1 rs

/-- The `(questionId, deviceId)` keys of a vote store, in store order. -/
def votePairs (votes : List Vote) : List (String × String) :=
  votes.map (fun v => (v.questionId, v.deviceId))

/-- `DELETE /api/questions/:questionId/votes` from `server/server.cjs`:
drop every vote of the question, then, when the question and its owning
event exist, arm that event's `clearedQuestionId`. -/
def deleteQuestionVotes (s : ServerState) (questionId : String) : ServerState :=
  let votes' := s.votes.filter (fun v => v.questionId ≠ questionId)
  match s.questions questionId with
  | some q =>
      match s.events q.eventId with
      | some ev =>
          { s with votes := votes',
                   events := fun k =>
                     if k = q.eventId then
                       some { ev with clearedQuestionId := some questionId }
                     else s.events k }
      | none => { s with votes := votes' }
  | none => { s with votes := votes' }

/-- `POST /api/events/:eventId/clear-notification` from
`server/server.cjs`: reset the event's `clearedQuestionId` to null (no-op
on an unknown event). -/
def clearNotification (s : ServerState) (eventId : String) : ServerState :=
  match s.events eventId with
  | some ev =>
      { s with events := fun k =>
          if k = eventId then some { ev with clearedQuestionId := none }
          else s.events k }
  | none => s

/-- Responses of `PUT /api/events/:eventId/current-question`. -/
inductive PutCurrentQuestionResponse where
  | badRequest
  | notFound
  | success
deriving DecidableEq, Repr

/-- `PUT /api/events/:eventId/current-question` from `server/server.cjs`:
400 when the body's `questionId` is falsy (checked first), 404 when the
event does not exist, else store the string unvalidated. -/
def putCurrentQuestion (s : ServerState) (eventId questionId : String) :
    ServerState × PutCurrentQuestionResponse :=
  if questionId = "" then (s, .badRequest)
  else
    match s.events eventId with
    | none => (s, .notFound)
    | some ev =>
        ({ s with events := fun k =>
            if k = eventId then some { ev with currentQuestionId := some questionId }
            else s.events k },
         .success)

/-- A server state with no events, no questions and no votes. -/
def emptyServerState : ServerState :=
  { events := fun _ => none, questions := fun _ => none, votes := [] }

/-! ## Polling subscription channels (`src/services/database.ts`)

Each `subscribeTo…` closure is embedded as a state machine processed over
a trace.  A trace element is either the arrival of a fetch outcome
(`none` for a network failure or non-2xx response, swallowed by the
`catch`/`response.ok` guard) or the call of the returned unsubscribe
function.  Callback invocations are collected as the run's output list.
JS `event.currentQuestionId || null` and the `clearedId &&` truthiness
test coerce the empty string to null; `normalizeId` models that. -/

/-- `x || null` on a nullable string: empty (falsy) becomes null. -/
def normalizeId : Option String → Option String
  | none => none
  | some s => if s = "" then none else some s

/-- State of the `subscribeToCurrentQuestion` closure. -/
structure CQState where
  isSubscribed : Bool
  lastQuestionId : Option String
deriving DecidableEq, Repr

/-- State right after `subscribeToCurrentQuestion` is entered:
subscribed, `lastQuestionId = null`. -/
def cqInit : CQState := { isSubscribed := true, lastQuestionId := none }

/-- One fetch outcome processed by `fetchCurrentQuestion`: on a 2xx
response, deliver the normalized `currentQuestionId` iff still subscribed
and it differs from the last-delivered value. -/
def cqStep (st : CQState) (fetched : Option (Option String)) :
    CQState × List (Option String) :=
  match fetched with
  | none => (st, [])
  | some raw =>
      let currentId := normalizeId raw
      if st.isSubscribed ∧ currentId ≠ st.lastQuestionId then
        ({ st with lastQuestionId := currentId }, [currentId])
      else (st, [])

/-- Process a list of fetch outcomes, collecting the callback deliveries
in order. -/
def cqRun (st : CQState) : List (Option (Option String)) → CQState × List (Option String)
  | [] => (st, [])
  | f :: fs =>
      let p := cqStep st f
      let q := cqRun p.1 fs
      (q.1, p.2 ++ q.2)

/-- A trace element for a subscription: a fetch outcome arriving, or the
unsubscribe function being called. -/
inductive SubEvent (α : Type) where
  | fetchComplete (v : α)
  | unsub

/-- `subscribeToCurrentQuestion` over a full trace: `unsub` clears the
`isSubscribed` flag and cancels the timer; a fetch outcome arriving
afterwards is dropped by the `isSubscribed` check before the callback. -/
def cqTraceStep (st : CQState) (e : SubEvent (Option (Option String))) :
    CQState × List (Option String) :=
  match e with
  | .unsub => ({ st with isSubscribed := false }, [])
  | .fetchComplete f => cqStep st f

def cqTraceRun (st : CQState) :
    List (SubEvent (Option (Option String))) → CQState × List (Option String)
  | [] => (st, [])
  | e :: es =>
      let p := cqTraceStep st e
      let q := cqTraceRun p.1 es
      (q.1, p.2 ++ q.2)

/-- State of the `subscribeToVotes` closure: only the flag. -/
structure SVState where
  isSubscribed : Bool
deriving DecidableEq, Repr

def svInit : SVState := { isSubscribed := true }

/-- One fetch outcome processed by `fetchVotes`: every 2xx response is
delivered in full, provided the flag is still set. -/
def svStep (st : SVState) (fetched : Option (List Vote)) :
    SVState × List (List Vote) :=
  match fetched with
  | none => (st, [])
  | some votes => if st.isSubscribed then (st, [votes]) else (st, [])

def svTraceStep (st : SVState) (e : SubEvent (Option (List Vote))) :
    SVState × List (List Vote) :=
  match e with
  | .unsub => ({ st with isSubscribed := false }, [])
  | .fetchComplete f => svStep st f

def svTraceRun (st : SVState) :
    List (SubEvent (Option (List Vote))) → SVState × List (List Vote)
  | [] => (st, [])
  | e :: es =>
      let p := svTraceStep st e
      let q := svTraceRun p.1 es
      (q.1, p.2 ++ q.2)

/-- State of the `subscribeToVoteCleared` closure. -/
structure SCState where
  isSubscribed : Bool
  lastClearedId : Option String
deriving DecidableEq, Repr

def scInit : SCState := { isSubscribed := true, lastClearedId := none }

/-- One fetch outcome processed by `fetchCleared`: deliver a truthy
`clearedQuestionId` that differs from the last seen one, then acknowledge
server-side. -/
def scStep (st : SCState) (fetched : Option (Option String)) :
    SCState × List String :=
  match fetched with
  | none => (st, [])
  | some raw =>
      match normalizeId raw with
      | none => (st, [])
      | some clearedId =>
          if st.isSubscribed ∧ some clearedId ≠ st.lastClearedId then
            ({ st with lastClearedId := some clearedId }, [clearedId])
          else (st, [])

def scTraceStep (st : SCState) (e : SubEvent (Option (Option String))) :
    SCState × List String :=
  match e with
  | .unsub => ({ st with isSubscribed := false }, [])
  | .fetchComplete f => scStep st f

def scTraceRun (st : SCState) :
    List (SubEvent (Option (Option String))) → SCState × List String
  | [] => (st, [])
  | e :: es =>
      let p := scTraceStep st e
      let q := scTraceRun p.1 es
      (q.1, p.2 ++ q.2)

/-! ## Sample data (used to evaluate the definitions on concrete inputs) -/

def voteA : Vote :=
  { id := "v1", questionId := "q1", optionId := "a", deviceId := "d1", timestamp := 0 }

def voteB : Vote :=
  { id := "v2", questionId := "q2", optionId := "b", deviceId := "d1", timestamp := 0 }

def optA : Opt := { id := "a", label := "A" }

def optB : Opt := { id := "b", label := "B" }

def ev1 : Event :=
  { id := "e1", name := "Demo", currentQuestionId := none, clearedQuestionId := none }

def qu1 : Question :=
  { id := "q1", eventId := "e1", title := "T", options := [optA, optB], order := 1 }

def sampleState : ServerState :=
  { events := fun k => if k = "e1" then some ev1 else none,
    questions := fun k => if k = "q1" then some qu1 else none,
    votes := [voteA, voteB] }

/-! ### Counting lemmas -/

theorem lookupCount_nil (k : String) : lookupCount [] k = 0 := rfl

theorem lookupCount_cons (a : String) (c : Nat) (m : List (String × Nat)) (k : String) :
    lookupCount ((a, c) :: m) k = if k = a then c else lookupCount m k := by
  by_cases h : k = a
  · subst h
    simp [lookupCount, List.lookup]
  · have hb : (k == a) = false := beq_eq_false_iff_ne.mpr h
    simp [lookupCount, List.lookup, hb, h]

theorem lookupCount_bumpCount (m : List (String × Nat)) (k k' : String) :
    lookupCount (bumpCount m k') k =
      lookupCount m k + (if k' = k then 1 else 0) := by
  induction m with
  | nil =>
    by_cases h : k' = k
    · subst h
      simp [bumpCount, lookupCount_cons, lookupCount_nil]
    · simp [bumpCount, lookupCount_cons, lookupCount_nil, h, Ne.symm h]
  | cons p rest ih =>
    obtain ⟨a, c⟩ := p
    by_cases ha : a = k'
    · subst ha
      simp only [bumpCount, if_pos rfl]
      by_cases hk : k = a
      · subst hk
        simp [lookupCount_cons]
      · have hak : ¬a = k := fun h => hk h.symm
        simp [lookupCount_cons, hk, hak]
    · simp only [bumpCount, if_neg ha]
      by_cases hk : k = a
      · subst hk
        have hk' : k' ≠ k := fun h => ha h.symm
        simp [lookupCount_cons, hk']
      · simp [lookupCount_cons, hk, ih]

/-- The count recorded for `k` is the number of votes cast for `k`. -/
theorem lookupCount_countMap (votes : List Vote) (k : String) :
    lookupCount (countMap votes) k = (votes.map Vote.optionId).count k := by
  suffices h : ∀ (m : List (String × Nat)),
      lookupCount (votes.foldl (fun m v => bumpCount m v.optionId) m) k =
        lookupCount m k + (votes.map Vote.optionId).count k by
    simpa [countMap, lookupCount_nil] using h []
  induction votes with
  | nil => simp
  | cons v rest ih =>
    intro m
    simp only [List.foldl_cons, List.map_cons]
    rw [ih, lookupCount_bumpCount]
    rw [List.count_cons]
    by_cases h : v.optionId = k
    · simp [h, beq_iff_eq]
      omega
    · simp [h, beq_iff_eq, Ne.symm h]

/-- Bumping a key raises the total of the recorded counts by one. -/
theorem sum_bumpCount (m : List (String × Nat)) (k : String) :
    ((bumpCount m k).map Prod.snd).sum = (m.map Prod.snd).sum + 1 := by
  induction m with
  | nil => simp [bumpCount]
  | cons p rest ih =>
    obtain ⟨a, c⟩ := p
    by_cases h : a = k
    · simp [bumpCount, h]
      omega
    · simp [bumpCount, h, ih]
      omega

/-- The counts recorded in `countMap` add up to the number of votes. -/
theorem sum_countMap (votes : List Vote) :
    ((countMap votes).map Prod.snd).sum = votes.length := by
  suffices h : ∀ (m : List (String × Nat)),
      ((votes.foldl (fun m v => bumpCount m v.optionId) m).map Prod.snd).sum =
        (m.map Prod.snd).sum + votes.length by
    simpa [countMap] using h []
  induction votes with
  | nil => simp
  | cons v rest ih =>
    intro m
    simp only [List.foldl_cons, List.length_cons]
    rw [ih, sum_bumpCount]
    omega

theorem sum_map_add_nat {α : Type} (L : List α) (f g : α → Nat) :
    (L.map (fun x => f x + g x)).sum = (L.map f).sum + (L.map g).sum := by
  induction L with
  | nil => simp
  | cons a rest ih => simp [ih]; omega

theorem sum_map_ite_eq (L : List String) (a : String) :
    (L.map (fun x => if x = a then 1 else 0)).sum = L.count a := by
  induction L with
  | nil => simp
  | cons b rest ih =>
    by_cases h : b = a
    · subst h
      simp [List.count_cons, ih]
      omega
    · have hb : ¬a = b := fun h' => h h'.symm
      simp [List.count_cons, ih, h, hb]

/-- Summing, over a duplicate-free list `L` that covers every element of
`ids`, the number of occurrences in `ids` recovers the length of `ids`. -/
theorem sum_counts_of_cover (ids L : List String) (hnd : L.Nodup)
    (hcov : ∀ x ∈ ids, x ∈ L) :
    (L.map (fun x => ids.count x)).sum = ids.length := by
  induction ids with
  | nil => simp
  | cons a rest ih =>
    have ha : a ∈ L := hcov a (List.mem_cons_self a rest)
    have hcov' : ∀ x ∈ rest, x ∈ L := fun x hx => hcov x (List.mem_cons_of_mem a hx)
    have hpt : L.map (fun x => (a :: rest).count x)
        = L.map (fun x => rest.count x + if x = a then 1 else 0) := by
      refine List.map_congr_left (fun x _ => ?_)
      by_cases h : x = a
      · subst h
        simp [List.count_cons]
      · have hax : ¬a = x := fun h' => h h'.symm
        simp [List.count_cons, h, hax]
    rw [hpt, sum_map_add_nat, ih hcov', sum_map_ite_eq,
      List.count_eq_one_of_mem hnd ha]
    simp

/-! ### Branch equations of `calculateStats` -/

theorem calculateStats_totalVotes (V : List Vote) (O : List Opt) :
    (calculateStats V O).totalVotes = V.length := rfl

theorem calculateStats_options_of_pos (V : List Vote) (O : List Opt)
    (h : 0 < O.length) :
    (calculateStats V O).options = O.map (fun o =>
      { optionId := o.id, label := o.label, count := lookupCount (countMap V) o.id,
        percentage := if V.length > 0 then
          (lookupCount (countMap V) o.id : ℚ) / (V.length : ℚ) * 100 else 0 }) := by
  simp [calculateStats, h]

theorem calculateStats_options_of_empty (V : List Vote) :
    (calculateStats V []).options = (countMap V).map (fun p =>
      { optionId := p.1, label := p.1, count := p.2,
        percentage := if V.length > 0 then
          (p.2 : ℚ) / (V.length : ℚ) * 100 else 0 }) := by
  simp [calculateStats]

/-! ### C1: totals -/

/-- C1 (amended): `calculateStats(V, O).totalVotes` always equals `len V`,
and the returned counts sum to `len V` whenever `O` is empty, or `O`'s ids
are duplicate-free and cover every `optionId` occurring in `V`.  (As
frozen, the sum clause fails for an option list that misses a voted
option: that vote is counted in `totalVotes` but in no returned entry.) -/
theorem calculateStats_totals (V : List Vote) (O : List Opt) :
    (calculateStats V O).totalVotes = V.length ∧
    ((O = [] ∨ ((O.map Opt.id).Nodup ∧ ∀ v ∈ V, v.optionId ∈ O.map Opt.id)) →
      ((calculateStats V O).options.map OptionStat.count).sum = V.length) := by
  refine ⟨rfl, ?_⟩
  rintro (hO | ⟨hnd, hcov⟩)
  · subst hO
    rw [calculateStats_options_of_empty, List.map_map]
    have hcomp : (OptionStat.count ∘ fun p : String × Nat =>
        ({ optionId := p.1, label := p.1, count := p.2,
           percentage := if V.length > 0 then (p.2 : ℚ) / (V.length : ℚ) * 100 else 0 } :
          OptionStat)) = Prod.snd := by
      funext p
      rfl
    rw [hcomp, sum_countMap]
  · by_cases hlen : 0 < O.length
    · rw [calculateStats_options_of_pos V O hlen, List.map_map]
      have hcomp : (OptionStat.count ∘ fun o : Opt =>
          ({ optionId := o.id, label := o.label, count := lookupCount (countMap V) o.id,
             percentage := if V.length > 0 then
               (lookupCount (countMap V) o.id : ℚ) / (V.length : ℚ) * 100 else 0 } :
            OptionStat)) = fun o : Opt => lookupCount (countMap V) o.id := by
        funext o
        rfl
      rw [hcomp]
      have hchar : (O.map fun o : Opt => lookupCount (countMap V) o.id)
          = (O.map Opt.id).map (fun x => (V.map Vote.optionId).count x) := by
        rw [List.map_map]
        exact List.map_congr_left (fun o _ => lookupCount_countMap V o.id)
      rw [hchar, sum_counts_of_cover (V.map Vote.optionId) (O.map Opt.id) hnd]
      · simp
      · intro x hx
        obtain ⟨v, hv, rfl⟩ := List.mem_map.mp hx
        exact hcov v hv
    · have hO : O = [] := List.length_eq_zero.mp (by omega)
      subst hO
      rw [calculateStats_options_of_empty, List.map_map]
      have hcomp : (OptionStat.count ∘ fun p : String × Nat =>
          ({ optionId := p.1, label := p.1, count := p.2,
             percentage := if V.length > 0 then (p.2 : ℚ) / (V.length : ℚ) * 100 else 0 } :
            OptionStat)) = Prod.snd := by
        funext p
        rfl
      rw [hcomp, sum_countMap]

/-- Claim C1, counterexample to the claim as frozen: one vote for option
id `"a"` scored against the option list `[optB]` (id `"b"`): the counts of
the returned entries sum to 0, not to the vote-list length 1. -/
theorem calculateStats_count_sum_counterexample :
    ((calculateStats [voteA] [optB]).options.map OptionStat.count).sum
      ≠ [voteA].length := by
  decide

/-- Witness for `calculateStats_totals` at a concrete input. -/
theorem calculateStats_totals_witness :
    (calculateStats [voteA] []).totalVotes = 1 ∧
    ((calculateStats [voteA] []).options.map OptionStat.count).sum = 1 :=
  ⟨(calculateStats_totals [voteA] []).1,
   (calculateStats_totals [voteA] []).2 (Or.inl rfl)⟩

/-- Claim C6: with a non-empty option list `O`, `calculateStats` returns
exactly one entry per option of `O`, in `O`'s order, with the label taken
from the option (not from the vote data), and count 0 for an option no
vote in `V` references. -/
theorem calculateStats_respects_options (V : List Vote) (O : List Opt)
    (h : O ≠ []) :
    (calculateStats V O).options.map (fun s => (s.optionId, s.label))
      = O.map (fun o => (o.id, o.label)) ∧
    ∀ s ∈ (calculateStats V O).options,
      (∀ v ∈ V, v.optionId ≠ s.optionId) → s.count = 0 := by
  have hlen : 0 < O.length := List.length_pos.mpr h
  rw [calculateStats_options_of_pos V O hlen]
  constructor
  · rw [List.map_map]
    rfl
  · intro s hs hnone
    obtain ⟨o, ho, rfl⟩ := List.mem_map.mp hs
    show lookupCount (countMap V) o.id = 0
    rw [lookupCount_countMap]
    refine List.count_eq_zero.mpr ?_
    intro hmem
    obtain ⟨v, hv, hvid⟩ := List.mem_map.mp hmem
    exact hnone v hv hvid

/-- Witness for `calculateStats_respects_options` at a concrete input. -/
theorem calculateStats_respects_options_witness :
    (calculateStats [voteA] [optA, optB]).options.map (fun s => (s.optionId, s.label))
      = [("a", "A"), ("b", "B")] ∧
    ∀ s ∈ (calculateStats [voteA] [optA, optB]).options,
      (∀ v ∈ [voteA], v.optionId ≠ s.optionId) → s.count = 0 :=
  calculateStats_respects_options [voteA] [optA, optB] (by decide)

/-- Claim C7: every returned entry's percentage equals
`count / totalVotes * 100` when `totalVotes > 0` and 0 when it is 0; the
empty vote list yields `totalVotes = 0`. -/
theorem calculateStats_percentage (V : List Vote) (O : List Opt) :
    (∀ s ∈ (calculateStats V O).options,
      s.percentage =
        if V.length > 0 then (s.count : ℚ) / (V.length : ℚ) * 100 else 0) ∧
    (calculateStats ([] : List Vote) O).totalVotes = 0 := by
  refine ⟨?_, rfl⟩
  intro s hs
  by_cases hlen : 0 < O.length
  · rw [calculateStats_options_of_pos V O hlen] at hs
    obtain ⟨o, ho, rfl⟩ := List.mem_map.mp hs
    rfl
  · have hO : O = [] := List.length_eq_zero.mp (by omega)
    subst hO
    rw [calculateStats_options_of_empty] at hs
    obtain ⟨p, hp, rfl⟩ := List.mem_map.mp hs
    rfl

/-- Witness for `calculateStats_percentage` at a concrete input: the head
entry of `calculateStats [voteA] [optA]` satisfies the percentage
equation. -/
theorem calculateStats_percentage_witness :
    ((calculateStats [voteA] [optA]).options.headD
        { optionId := "", label := "", count := 0, percentage := 0 }).percentage
      = if [voteA].length > 0 then
          (((calculateStats [voteA] [optA]).options.headD
              { optionId := "", label := "", count := 0, percentage := 0 }).count : ℚ)
            / (([voteA].length : Nat) : ℚ) * 100
        else 0 :=
  (calculateStats_percentage [voteA] [optA]).1 _ (by
    rw [calculateStats_options_of_pos [voteA] [optA] (by decide)]
    exact List.mem_cons_self _ _)

/-! ### `POST /api/votes` lemmas -/

theorem updateExisting_eq_none_iff (votes : List Vote) (q o d : String) (now : Nat) :
    updateExisting votes q o d now = none ↔ (q, d) ∉ votePairs votes := by
  induction votes with
  | nil => simp [updateExisting, votePairs]
  | cons v rest ih =>
    by_cases hc : v.questionId = q ∧ v.deviceId = d
    · simp only [updateExisting, if_pos hc, votePairs, List.map_cons]
      constructor
      · intro h
        cases h
      · intro h
        exfalso
        apply h
        rw [hc.1, hc.2]
        exact List.mem_cons_self _ _
    · simp only [updateExisting, if_neg hc, votePairs, List.map_cons]
      cases hrec : updateExisting rest q o d now with
      | some p =>
        have hmem : (q, d) ∈ votePairs rest := by
          by_contra hnot
          rw [← ih] at hnot
          rw [hnot] at hrec
          cases hrec
        constructor
        · intro h
          cases h
        · intro h
          exact absurd (List.mem_cons_of_mem _ hmem) h
      | none =>
        have hnot : (q, d) ∉ votePairs rest := (ih).mp hrec
        constructor
        · intro _
          intro hmem
          rcases List.mem_cons.mp hmem with heq | htl
          · apply hc
            have h1 : v.questionId = q := congrArg Prod.fst heq.symm
            have h2 : v.deviceId = d := congrArg Prod.snd heq.symm
            exact ⟨h1, h2⟩
          · exact hnot htl
        · intro _
          rfl

theorem updateExisting_spec (votes : List Vote) (q o d : String) (now : Nat)
    (votes' : List Vote) (v' : Vote)
    (h : updateExisting votes q o d now = some (votes', v')) :
    ∃ pre w post,
      votes = pre ++ w :: post ∧
      v' = { w with optionId := o, timestamp := now } ∧
      votes' = pre ++ v' :: post ∧
      w.questionId = q ∧ w.deviceId = d ∧
      ∀ u ∈ pre, ¬(u.questionId = q ∧ u.deviceId = d) := by
  induction votes generalizing votes' v' with
  | nil => cases h
  | cons v rest ih =>
    by_cases hc : v.questionId = q ∧ v.deviceId = d
    · rw [updateExisting, if_pos hc] at h
      injection h with h1
      injection h1 with hl hr
      refine ⟨[], v, rest, rfl, hr.symm, ?_, hc.1, hc.2, by simp⟩
      rw [← hl, ← hr]
      rfl
    · rw [updateExisting, if_neg hc] at h
      cases hrec : updateExisting rest q o d now with
      | none =>
        rw [hrec] at h
        cases h
      | some p =>
        obtain ⟨rest', upd⟩ := p
        rw [hrec] at h
        injection h with h1
        injection h1 with hl hr
        obtain ⟨pre, w, post, hv, hupd, hv', hwq, hwd, hpre⟩ := ih rest' upd hrec
        refine ⟨v :: pre, w, post, ?_, ?_, ?_, hwq, hwd, ?_⟩
        · rw [hv]
          rfl
        · rw [← hr]
          exact hupd
        · rw [← hl, hv', ← hr]
          rfl
        · intro u hu
          rcases List.mem_cons.mp hu with rfl | hu'
          · exact hc
          · exact hpre u hu'

theorem votePairs_append (a b : List Vote) :
    votePairs (a ++ b) = votePairs a ++ votePairs b := by
  simp [votePairs]

theorem votePairs_updateExisting (votes : List Vote) (q o d : String) (now : Nat)
    (votes' : List Vote) (v' : Vote)
    (h : updateExisting votes q o d now = some (votes', v')) :
    votePairs votes' = votePairs votes ∧ votes'.length = votes.length := by
  obtain ⟨pre, w, post, hv, hupd, hv', _, _, _⟩ := updateExisting_spec votes q o d now votes' v' h
  subst hv hv' hupd
  constructor
  · simp [votePairs]
  · simp

theorem postVote_step_nodup (votes : List Vote) (q o d : String) (now : Nat)
    (fid : String) (hnd : (votePairs votes).Nodup) :
    (votePairs (postVote votes q o d now fid).1).Nodup := by
  by_cases hmiss : q = "" ∨ o = "" ∨ d = ""
  · rw [postVote, if_pos hmiss]
    exact hnd
  · rw [postVote, if_neg hmiss]
    cases hrec : updateExisting votes q o d now with
    | some p =>
      obtain ⟨votes', v'⟩ := p
      have := (votePairs_updateExisting votes q o d now votes' v' hrec).1
      simpa [this] using hnd
    | none =>
      have hnot : (q, d) ∉ votePairs votes :=
        (updateExisting_eq_none_iff votes q o d now).mp hrec
      simp only [votePairs_append]
      rw [List.nodup_append]
      refine ⟨hnd, by simp [votePairs], ?_⟩
      intro p hp
      simp only [votePairs, List.map_cons, List.map_nil, List.mem_singleton]
      intro hpq
      subst hpq
      exact hnot hp

theorem postVotes_preserves_nodup (rs : List PostVoteRequest) :
    ∀ votes : List Vote, (votePairs votes).Nodup →
      (votePairs (postVotes votes rs)).Nodup := by
  induction rs with
  | nil =>
    intro votes hnd
    exact hnd
  | cons r rest ih =>
    intro votes hnd
    exact ih _ (postVote_step_nodup votes r.questionId r.optionId r.deviceId r.now r.freshId hnd)

/-- Claim C2: the vote store keeps at most one vote per
`(questionId, deviceId)` pair — any request sequence preserves the
no-duplicate-pair invariant; a resubmission for an existing pair updates
that record's `optionId` and `timestamp` in place (same position, all
other records untouched, length and key list unchanged) and answers with
`updated: true`; a request with a missing field answers 400 and leaves
the store unchanged. -/
theorem postVote_dedup (votes : List Vote) (q o d : String) (now : Nat)
    (fid : String) :
    ((q = "" ∨ o = "" ∨ d = "") →
      postVote votes q o d now fid = (votes, .badRequest)) ∧
    (¬(q = "" ∨ o = "" ∨ d = "") → (q, d) ∈ votePairs votes →
      ∃ pre w post v',
        (postVote votes q o d now fid).2 = .updatedResp v' ∧
        v'.optionId = o ∧ v'.timestamp = now ∧
        v' = { w with optionId := o, timestamp := now } ∧
        votes = pre ++ w :: post ∧
        (postVote votes q o d now fid).1 = pre ++ v' :: post ∧
        w.questionId = q ∧ w.deviceId = d ∧
        (postVote votes q o d now fid).1.length = votes.length ∧
        votePairs (postVote votes q o d now fid).1 = votePairs votes) ∧
    ((votePairs votes).Nodup →
      ∀ rs : List PostVoteRequest, (votePairs (postVotes votes rs)).Nodup) := by
  refine ⟨?_, ?_, ?_⟩
  · intro hmiss
    rw [postVote, if_pos hmiss]
  · intro hne hmem
    cases hrec : updateExisting votes q o d now with
    | none =>
      exact absurd hmem ((updateExisting_eq_none_iff votes q o d now).mp hrec)
    | some p =>
      obtain ⟨votes', v'⟩ := p
      obtain ⟨pre, w, post, hv, hupd, hv', hwq, hwd, _⟩ :=
        updateExisting_spec votes q o d now votes' v' hrec
      have hpairs := votePairs_updateExisting votes q o d now votes' v' hrec
      refine ⟨pre, w, post, v', ?_, ?_, ?_, hupd, hv, ?_, hwq, hwd, ?_, ?_⟩
      · rw [postVote, if_neg hne, hrec]
      · rw [hupd]
      · rw [hupd]
      · rw [postVote, if_neg hne, hrec]
        exact hv'
      · rw [postVote, if_neg hne, hrec]
        exact hpairs.2
      · rw [postVote, if_neg hne, hrec]
        exact hpairs.1
  · intro hnd rs
    exact postVotes_preserves_nodup rs votes hnd

/-- Witness for `postVote_dedup`: a missing `questionId` is rejected with
the store unchanged; resubmitting for `voteA`'s pair updates it in place;
the empty request sequence keeps the store duplicate-free. -/
theorem postVote_dedup_witness :
    postVote [voteA] "" "a" "d1" 5 "nid" = ([voteA], .badRequest) ∧
    (∃ pre w post v',
      (postVote [voteA] "q1" "b" "d1" 5 "nid").2 = .updatedResp v' ∧
      v'.optionId = "b" ∧ v'.timestamp = 5 ∧
      v' = { w with optionId := "b", timestamp := 5 } ∧
      [voteA] = pre ++ w :: post ∧
      (postVote [voteA] "q1" "b" "d1" 5 "nid").1 = pre ++ v' :: post ∧
      w.questionId = "q1" ∧ w.deviceId = "d1" ∧
      (postVote [voteA] "q1" "b" "d1" 5 "nid").1.length = [voteA].length ∧
      votePairs (postVote [voteA] "q1" "b" "d1" 5 "nid").1 = votePairs [voteA]) ∧
    (votePairs (postVotes [voteA] [])).Nodup :=
  ⟨(postVote_dedup [voteA] "" "a" "d1" 5 "nid").1 (Or.inl rfl),
   (postVote_dedup [voteA] "q1" "b" "d1" 5 "nid").2.1 (by decide) (by decide),
   (postVote_dedup [voteA] "q1" "b" "d1" 5 "nid").2.2 (by decide) []⟩

/-! ### `DELETE /api/questions/:questionId/votes` and the clear flag -/

/-- Claim C9: deleting a question's votes removes exactly the votes of
that question (the other questions' votes survive in order, whether or
not the question record exists); when the question and its owning event
exist, the event's `clearedQuestionId` is armed with that question id and
the clear-notification acknowledgement resets it to null. -/
theorem deleteQuestionVotes_spec (s : ServerState) (qid : String) :
    (deleteQuestionVotes s qid).votes
      = s.votes.filter (fun v => v.questionId ≠ qid) ∧
    (∀ v ∈ (deleteQuestionVotes s qid).votes, v.questionId ≠ qid) ∧
    (∀ v ∈ s.votes, v.questionId ≠ qid → v ∈ (deleteQuestionVotes s qid).votes) ∧
    (∀ q ev, s.questions qid = some q → s.events q.eventId = some ev →
      (deleteQuestionVotes s qid).events q.eventId
        = some { ev with clearedQuestionId := some qid } ∧
      (clearNotification (deleteQuestionVotes s qid) q.eventId).events q.eventId
        = some { ev with clearedQuestionId := none }) := by
  have hvotes : (deleteQuestionVotes s qid).votes
      = s.votes.filter (fun v => v.questionId ≠ qid) := by
    cases hq : s.questions qid with
    | none => simp only [deleteQuestionVotes, hq]
    | some q =>
      cases hev : s.events q.eventId with
      | none => simp only [deleteQuestionVotes, hq, hev]
      | some ev => simp only [deleteQuestionVotes, hq, hev]
  refine ⟨hvotes, ?_, ?_, ?_⟩
  · intro v hv
    rw [hvotes] at hv
    exact of_decide_eq_true (List.mem_filter.mp hv).2
  · intro v hv hne
    rw [hvotes]
    exact List.mem_filter.mpr ⟨hv, decide_eq_true hne⟩
  · intro q ev hq hev
    have hstate : deleteQuestionVotes s qid =
        { events := fun k =>
            if k = q.eventId then some { ev with clearedQuestionId := some qid }
            else s.events k,
          questions := s.questions,
          votes := s.votes.filter (fun v => v.questionId ≠ qid) } := by
      rw [deleteQuestionVotes]
      simp only [hq, hev]
    rw [hstate]
    constructor
    · simp
    · rw [clearNotification]
      simp

/-- Witness for `deleteQuestionVotes_spec` on `sampleState`: clearing
question `"q1"` keeps exactly the other question's vote and arms then
resets the flag on event `"e1"`. -/
theorem deleteQuestionVotes_spec_witness :
    (deleteQuestionVotes sampleState "q1").events "e1"
      = some { ev1 with clearedQuestionId := some "q1" } ∧
    (clearNotification (deleteQuestionVotes sampleState "q1") "e1").events "e1"
      = some { ev1 with clearedQuestionId := none } :=
  (deleteQuestionVotes_spec sampleState "q1").2.2.2 qu1 ev1 rfl rfl

/-! ### `PUT /api/events/:eventId/current-question` -/

/-- Claim C10, counterexample to the claim as frozen: with no events in
the store and an empty (falsy) `questionId`, the event id is absent yet
the handler answers 400, not 404 — the missing-`questionId` check runs
first. -/
theorem putCurrentQuestion_status_counterexample :
    emptyServerState.events "e1" = none ∧
    (putCurrentQuestion emptyServerState "e1" "").2
      = PutCurrentQuestionResponse.badRequest ∧
    (putCurrentQuestion emptyServerState "e1" "").2
      ≠ PutCurrentQuestionResponse.notFound :=
  ⟨rfl, rfl, by decide⟩

/-- Claim C10 (amended): the handler answers 400 exactly when the body's
`questionId` is falsy; 404 exactly when `questionId` is non-falsy and the
event id is not in the store (the 400 check takes precedence); both error
cases leave the store unchanged; otherwise it stores exactly the given
string as `currentQuestionId` — for an arbitrary non-empty string, with
no validation against any Question — leaving questions, votes and other
events untouched. -/
theorem putCurrentQuestion_spec (s : ServerState) (eid qid : String) :
    ((putCurrentQuestion s eid qid).2 = .badRequest ↔ qid = "") ∧
    ((putCurrentQuestion s eid qid).2 = .notFound ↔
      (qid ≠ "" ∧ s.events eid = none)) ∧
    ((qid = "" ∨ s.events eid = none) → (putCurrentQuestion s eid qid).1 = s) ∧
    (∀ ev, qid ≠ "" → s.events eid = some ev →
      (putCurrentQuestion s eid qid).2 = .success ∧
      (putCurrentQuestion s eid qid).1.events eid
        = some { ev with currentQuestionId := some qid } ∧
      (∀ k, k ≠ eid → (putCurrentQuestion s eid qid).1.events k = s.events k) ∧
      (putCurrentQuestion s eid qid).1.questions = s.questions ∧
      (putCurrentQuestion s eid qid).1.votes = s.votes) := by
  by_cases hq : qid = ""
  · rw [putCurrentQuestion, if_pos hq]
    refine ⟨by simp [hq], ?_, fun _ => rfl, ?_⟩
    · constructor
      · intro h
        cases h
      · rintro ⟨hne, _⟩
        exact absurd hq hne
    · intro ev hne _
      exact absurd hq hne
  · rw [putCurrentQuestion, if_neg hq]
    cases hev : s.events eid with
    | none =>
      refine ⟨?_, by simp [hq, hev], fun _ => rfl, ?_⟩
      · constructor
        · intro h
          cases h
        · intro h
          exact absurd h hq
      · intro ev _ hsome
        cases hsome
    | some ev0 =>
      refine ⟨?_, ?_, ?_, ?_⟩
      · constructor
        · intro h
          cases h
        · intro h
          exact absurd h hq
      · constructor
        · intro h
          cases h
        · rintro ⟨_, hnone⟩
          cases hnone
      · rintro (h | h)
        · exact absurd h hq
        · cases h
      · intro ev hne hsome
        injection hsome with hsome
        subst hsome
        refine ⟨rfl, by simp, ?_, rfl, rfl⟩
        intro k hk
        simp [hk]

/-- Witness for `putCurrentQuestion_spec` on `sampleState`: setting the
current question of event `"e1"` to the unvalidated id `"q9"` succeeds
and stores exactly that string. -/
theorem putCurrentQuestion_spec_witness :
    (putCurrentQuestion sampleState "e1" "q9").2
      = PutCurrentQuestionResponse.success ∧
    (putCurrentQuestion sampleState "e1" "q9").1.events "e1"
      = some { ev1 with currentQuestionId := some "q9" } ∧
    (putCurrentQuestion sampleState "e1" "").1 = sampleState :=
  have h := putCurrentQuestion_spec sampleState "e1" "q9"
  have h4 := h.2.2.2 ev1 (by decide) rfl
  ⟨h4.1, h4.2.1,
   (putCurrentQuestion_spec sampleState "e1" "").2.2.1 (Or.inl rfl)⟩

/-! ### Current-question channel lemmas -/

theorem cqStep_isSubscribed (st : CQState) (f : Option (Option String)) :
    (cqStep st f).1.isSubscribed = st.isSubscribed := by
  cases f with
  | none => rfl
  | some raw =>
    simp only [cqStep]
    split
    · rfl
    · rfl

theorem cqRun_singleton (st : CQState) (f : Option (Option String)) :
    cqRun st [f] = ((cqStep st f).1, (cqStep st f).2) := by
  simp [cqRun]

theorem cqRun_isSubscribed (fs : List (Option (Option String))) (st : CQState) :
    (cqRun st fs).1.isSubscribed = st.isSubscribed := by
  induction fs generalizing st with
  | nil => rfl
  | cons f rest ih =>
    simp only [cqRun]
    rw [ih, cqStep_isSubscribed]

theorem cqRun_append (st : CQState) (as bs : List (Option (Option String))) :
    cqRun st (as ++ bs)
      = ((cqRun (cqRun st as).1 bs).1,
         (cqRun st as).2 ++ (cqRun (cqRun st as).1 bs).2) := by
  induction as generalizing st with
  | nil => simp [cqRun]
  | cons a rest ih =>
    simp only [List.cons_append, cqRun, List.append_eq]
    rw [ih]
    simp

theorem cqStep_success (st : CQState) (raw : Option String)
    (h : st.isSubscribed = true) :
    (cqStep st (some raw)).1.lastQuestionId = normalizeId raw ∧
    (cqStep st (some raw)).1.isSubscribed = true := by
  simp only [cqStep]
  by_cases hc : normalizeId raw ≠ st.lastQuestionId
  · rw [if_pos ⟨h, hc⟩]
    exact ⟨rfl, h⟩
  · rw [if_neg (fun hcon => hc hcon.2)]
    push_neg at hc
    exact ⟨hc.symm, h⟩

theorem cq_chain_aux (fs : List (Option (Option String))) :
    ∀ st : CQState, st.isSubscribed = true →
      List.Chain' (fun a b => a ≠ b) (st.lastQuestionId :: (cqRun st fs).2) := by
  induction fs with
  | nil =>
    intro st h
    exact List.chain'_singleton _
  | cons f rest ih =>
    intro st h
    cases f with
    | none =>
      simpa [cqRun, cqStep] using ih st h
    | some raw =>
      by_cases hc : normalizeId raw ≠ st.lastQuestionId
      · have hstep : cqStep st (some raw)
            = ({ st with lastQuestionId := normalizeId raw }, [normalizeId raw]) := by
          simp only [cqStep]
          rw [if_pos ⟨h, hc⟩]
        have ihc := ih { st with lastQuestionId := normalizeId raw } h
        simp only [cqRun, hstep, List.singleton_append]
        rw [List.chain'_cons]
        exact ⟨Ne.symm hc, ihc⟩
      · have hstep : cqStep st (some raw) = (st, []) := by
          simp only [cqStep]
          rw [if_neg (fun hcon => hc hcon.2)]
        simpa [cqRun, hstep] using ih st h

/-- Claim C3: the current-question channel fires its callback only on a
value change relative to the last-delivered value (null included):
re-fetching an identical value right after produces no extra delivery,
and the delivered sequence — seeded from the internal null sentinel —
never repeats a value in two consecutive deliveries. -/
theorem subscribeToCurrentQuestion_change_detection
    (fs : List (Option (Option String))) (v : Option String) :
    (cqRun cqInit (fs ++ [some v, some v])).2
      = (cqRun cqInit (fs ++ [some v])).2 ∧
    List.Chain' (fun a b => a ≠ b) (none :: (cqRun cqInit fs).2) := by
  constructor
  · have hassoc : fs ++ [some v, some v] = (fs ++ [some v]) ++ [some v] := by
      simp
    rw [hassoc, cqRun_append]
    have hlast : (cqRun cqInit (fs ++ [some v])).1.lastQuestionId = normalizeId v := by
      rw [cqRun_append]
      have hsub' : (cqRun cqInit fs).1.isSubscribed = true :=
        cqRun_isSubscribed fs cqInit
      rw [cqRun_singleton]
      exact (cqStep_success (cqRun cqInit fs).1 v hsub').1
    have hstep : cqStep (cqRun cqInit (fs ++ [some v])).1 (some v)
        = ((cqRun cqInit (fs ++ [some v])).1, []) := by
      simp only [cqStep]
      rw [if_neg]
      intro hcon
      exact hcon.2 hlast.symm
    rw [cqRun_singleton, hstep]
    simp
  · exact cq_chain_aux fs cqInit rfl

/-! ### C4: the immediate initial fetch -/

/-- Claim C4, counterexample to the claim as frozen: subscribing to the
current-question channel when the server-side value is null performs the
immediate fetch but delivers nothing — the null initial value coincides
with the internal `lastQuestionId = null` sentinel and is suppressed, so
not every initial value (null included) is delivered. -/
theorem initial_null_suppressed_counterexample :
    (cqRun cqInit [some none]).2 = [] := rfl

/-- Claim C4 (amended): the immediate initial fetch delivers an initial
value to the callback for `subscribeToVotes` (any successful vote-list
fetch) and for `subscribeToCurrentQuestion` whenever the initial
`currentQuestionId` is non-null after `|| null` coercion; the initial
null value is suppressed by the change check. -/
theorem initial_fetch_delivery (vs : List Vote) (v : String) (h : v ≠ "") :
    (svTraceRun svInit [SubEvent.fetchComplete (some vs)]).2 = [vs] ∧
    (cqTraceRun cqInit [SubEvent.fetchComplete (some (some v))]).2 = [some v] ∧
    (cqTraceRun cqInit [SubEvent.fetchComplete (some none)]).2 = [] := by
  refine ⟨rfl, ?_, rfl⟩
  simp [cqTraceRun, cqTraceStep, cqStep, normalizeId, h, cqInit]

/-- Witness for `initial_fetch_delivery` at a concrete input. -/
theorem initial_fetch_delivery_witness :
    (svTraceRun svInit [SubEvent.fetchComplete (some [voteA])]).2 = [[voteA]] ∧
    (cqTraceRun cqInit [SubEvent.fetchComplete (some (some "q1"))]).2 = [some "q1"] ∧
    (cqTraceRun cqInit [SubEvent.fetchComplete (some none)]).2 = [] :=
  initial_fetch_delivery [voteA] "q1" (by decide)

/-! ### C5: vote-status guard -/

theorem getStorageKey_inj (q q' : String)
    (h : getStorageKey q = getStorageKey q') : q = q' := by
  have hd := congrArg String.data h
  simp only [getStorageKey, String.data_append] at hd
  have h2 : q.data = q'.data := List.append_cancel_left hd
  cases q
  cases q'
  exact congrArg String.mk h2

/-- Claim C5: for non-empty question ids, the guard starts unmarked;
after `markAsVoted` the status reads true; marking again changes nothing
(same storage, same true return); `clearVoteStatus` resets the status to
false; and the statuses of two distinct question ids are independent. -/
theorem voteStatus_guard_lifecycle (store : LocalStorage) (q q' : String)
    (hq : q ≠ "") (hq' : q' ≠ "") :
    checkVoteStatus emptyStorage q = false ∧
    checkVoteStatus (markAsVoted store q).1 q = true ∧
    (markAsVoted store q).2 = true ∧
    (markAsVoted (markAsVoted store q).1 q).1 = (markAsVoted store q).1 ∧
    (∀ n : Nat, (fun st : LocalStorage => (markAsVoted st q).1)^[n + 1] store
        = (markAsVoted store q).1) ∧
    (markAsVoted (markAsVoted store q).1 q).2 = true ∧
    checkVoteStatus (clearVoteStatus store q) q = false ∧
    (q ≠ q' → checkVoteStatus (markAsVoted store q).1 q'
                = checkVoteStatus store q') := by
  have hidem : ∀ st : LocalStorage,
      (markAsVoted (markAsVoted st q).1 q).1 = (markAsVoted st q).1 := by
    intro st
    simp only [markAsVoted, if_neg hq]
    funext k
    by_cases hk : k = getStorageKey q
    · simp [hk]
    · simp [hk]
  refine ⟨?_, ?_, ?_, hidem store, ?_, ?_, ?_, ?_⟩
  · simp [checkVoteStatus, hq, emptyStorage]
  · simp [checkVoteStatus, markAsVoted, hq]
  · simp [markAsVoted, hq]
  · intro n
    induction n with
    | zero => rfl
    | succ m ihm =>
      rw [Function.iterate_succ_apply', ihm]
      exact hidem store
  · simp [markAsVoted, hq]
  · simp [checkVoteStatus, clearVoteStatus, hq]
  · intro hne
    have hkey : getStorageKey q' ≠ getStorageKey q :=
      fun h => hne (getStorageKey_inj q' q h).symm

    simp [checkVoteStatus, markAsVoted, hq, hq', hkey]

/-- Witness for `voteStatus_guard_lifecycle` at concrete inputs. -/
theorem voteStatus_guard_lifecycle_witness :
    checkVoteStatus emptyStorage "q1" = false ∧
    checkVoteStatus (markAsVoted emptyStorage "q1").1 "q1" = true ∧
    (markAsVoted emptyStorage "q1").2 = true ∧
    (markAsVoted (markAsVoted emptyStorage "q1").1 "q1").1
      = (markAsVoted emptyStorage "q1").1 ∧
    (fun st : LocalStorage => (markAsVoted st "q1").1)^[2] emptyStorage
      = (markAsVoted emptyStorage "q1").1 ∧
    (markAsVoted (markAsVoted emptyStorage "q1").1 "q1").2 = true ∧
    checkVoteStatus (clearVoteStatus emptyStorage "q1") "q1" = false ∧
    checkVoteStatus (markAsVoted emptyStorage "q1").1 "q2"
      = checkVoteStatus emptyStorage "q2" :=
  have h := voteStatus_guard_lifecycle emptyStorage "q1" "q2" (by decide) (by decide)
  ⟨h.1, h.2.1, h.2.2.1, h.2.2.2.1, h.2.2.2.2.1 1, h.2.2.2.2.2.1,
   h.2.2.2.2.2.2.1, h.2.2.2.2.2.2.2 (by decide)⟩

/-! ### C8: unsubscribe stops deliveries -/

theorem svTraceRun_append (st : SVState)
    (as bs : List (SubEvent (Option (List Vote)))) :
    svTraceRun st (as ++ bs)
      = ((svTraceRun (svTraceRun st as).1 bs).1,
         (svTraceRun st as).2 ++ (svTraceRun (svTraceRun st as).1 bs).2) := by
  induction as generalizing st with
  | nil => simp [svTraceRun]
  | cons a rest ih =>
    simp only [List.cons_append, svTraceRun, List.append_eq]
    rw [ih]
    simp

theorem svTraceRun_unsubscribed (es : List (SubEvent (Option (List Vote)))) :
    ∀ st : SVState, st.isSubscribed = false →
      (svTraceRun st es).2 = [] ∧ (svTraceRun st es).1.isSubscribed = false := by
  induction es with
  | nil => exact fun st h => ⟨rfl, h⟩
  | cons e rest ih =>
    intro st h
    cases e with
    | unsub =>
      simpa [svTraceRun, svTraceStep] using ih { st with isSubscribed := false } rfl
    | fetchComplete f =>
      cases f with
      | none => simpa [svTraceRun, svTraceStep, svStep] using ih st h
      | some vs =>
        have hstep : svStep st (some vs) = (st, []) := by
          simp [svStep, h]
        simpa [svTraceRun, svTraceStep, hstep] using ih st h

theorem cqTraceRun_append (st : CQState)
    (as bs : List (SubEvent (Option (Option String)))) :
    cqTraceRun st (as ++ bs)
      = ((cqTraceRun (cqTraceRun st as).1 bs).1,
         (cqTraceRun st as).2 ++ (cqTraceRun (cqTraceRun st as).1 bs).2) := by
  induction as generalizing st with
  | nil => simp [cqTraceRun]
  | cons a rest ih =>
    simp only [List.cons_append, cqTraceRun, List.append_eq]
    rw [ih]
    simp

theorem cqTraceRun_unsubscribed (es : List (SubEvent (Option (Option String)))) :
    ∀ st : CQState, st.isSubscribed = false →
      (cqTraceRun st es).2 = [] ∧ (cqTraceRun st es).1.isSubscribed = false := by
  induction es with
  | nil => exact fun st h => ⟨rfl, h⟩
  | cons e rest ih =>
    intro st h
    cases e with
    | unsub =>
      simpa [cqTraceRun, cqTraceStep] using ih { st with isSubscribed := false } rfl
    | fetchComplete f =>
      cases f with
      | none => simpa [cqTraceRun, cqTraceStep, cqStep] using ih st h
      | some raw =>
        have hstep : cqStep st (some raw) = (st, []) := by
          simp only [cqStep]
          rw [if_neg]
          intro hcon
          have hcon1 := hcon.1
          rw [h] at hcon1
          exact absurd hcon1 (by decide)
        simpa [cqTraceRun, cqTraceStep, hstep] using ih st h

theorem scTraceRun_append (st : SCState)
    (as bs : List (SubEvent (Option (Option String)))) :
    scTraceRun st (as ++ bs)
      = ((scTraceRun (scTraceRun st as).1 bs).1,
         (scTraceRun st as).2 ++ (scTraceRun (scTraceRun st as).1 bs).2) := by
  induction as generalizing st with
  | nil => simp [scTraceRun]
  | cons a rest ih =>
    simp only [List.cons_append, scTraceRun, List.append_eq]
    rw [ih]
    simp

theorem scTraceRun_unsubscribed (es : List (SubEvent (Option (Option String)))) :
    ∀ st : SCState, st.isSubscribed = false →
      (scTraceRun st es).2 = [] ∧ (scTraceRun st es).1.isSubscribed = false := by
  induction es with
  | nil => exact fun st h => ⟨rfl, h⟩
  | cons e rest ih =>
    intro st h
    cases e with
    | unsub =>
      simpa [scTraceRun, scTraceStep] using ih { st with isSubscribed := false } rfl
    | fetchComplete f =>
      cases f with
      | none => simpa [scTraceRun, scTraceStep, scStep] using ih st h
      | some raw =>
        have hstep : scStep st (some raw) = (st, []) := by
          simp only [scStep]
          cases normalizeId raw with
          | none => rfl
          | some clearedId => simp [h]
        simpa [scTraceRun, scTraceStep, hstep] using ih st h

/-- Claim C8: on each of the three polling channels, once the returned
unsubscribe function has run (clearing the `isSubscribed` flag), no later
trace event — in particular no fetch response still in flight at
unsubscription time — produces a callback delivery: the delivery list of
any extended trace equals the delivery list up to the unsubscribe. -/
theorem unsubscribe_stops_deliveries :
    (∀ t1 t2 : List (SubEvent (Option (List Vote))),
      (svTraceRun svInit ((t1 ++ [SubEvent.unsub]) ++ t2)).2
        = (svTraceRun svInit (t1 ++ [SubEvent.unsub])).2 ∧
      (svTraceRun svInit (t1 ++ [SubEvent.unsub])).1.isSubscribed = false) ∧
    (∀ t1 t2 : List (SubEvent (Option (Option String))),
      (cqTraceRun cqInit ((t1 ++ [SubEvent.unsub]) ++ t2)).2
        = (cqTraceRun cqInit (t1 ++ [SubEvent.unsub])).2 ∧
      (cqTraceRun cqInit (t1 ++ [SubEvent.unsub])).1.isSubscribed = false) ∧
    (∀ t1 t2 : List (SubEvent (Option (Option String))),
      (scTraceRun scInit ((t1 ++ [SubEvent.unsub]) ++ t2)).2
        = (scTraceRun scInit (t1 ++ [SubEvent.unsub])).2 ∧
      (scTraceRun scInit (t1 ++ [SubEvent.unsub])).1.isSubscribed = false) := by
  refine ⟨?_, ?_, ?_⟩
  · intro t1 t2
    have hflag : (svTraceRun svInit (t1 ++ [SubEvent.unsub])).1.isSubscribed = false := by
      rw [svTraceRun_append]
      simp [svTraceRun, svTraceStep]
    have hrest := svTraceRun_unsubscribed t2 _ hflag
    rw [svTraceRun_append svInit (t1 ++ [SubEvent.unsub]) t2]
    simp [hrest.1, hflag]
  · intro t1 t2
    have hflag : (cqTraceRun cqInit (t1 ++ [SubEvent.unsub])).1.isSubscribed = false := by
      rw [cqTraceRun_append]
      simp [cqTraceRun, cqTraceStep]
    have hrest := cqTraceRun_unsubscribed t2 _ hflag
    rw [cqTraceRun_append cqInit (t1 ++ [SubEvent.unsub]) t2]
    simp [hrest.1, hflag]
  · intro t1 t2
    have hflag : (scTraceRun scInit (t1 ++ [SubEvent.unsub])).1.isSubscribed = false := by
      rw [scTraceRun_append]
      simp [scTraceRun, scTraceStep]
    have hrest := scTraceRun_unsubscribed t2 _ hflag
    rw [scTraceRun_append scInit (t1 ++ [SubEvent.unsub]) t2]
    simp [hrest.1, hflag]

end Game
